import Mathlib

/-!
Verification development for the K-Orbit learning platform core:
the lesson-completion / gamification trigger from `infra/schema.sql`
and the client WebSocket session from the frontend socket provider.

The database side is shallowly embedded: tables are lists of rows and
the `update_course_progress` trigger is a Lean function applied after
each `lesson_progress` INSERT/UPDATE, mirroring the schema's
`AFTER INSERT OR UPDATE` trigger.  A statement that violates a
constraint (UNIQUE, foreign key, division by zero inside the trigger)
aborts its transaction, which we model as the operation leaving the
database unchanged.

PostgreSQL `DECIMAL(5,2)` progress values are exact multiples of 0.01,
so they are embedded as natural numbers counting hundredths of a
percent (7500 = 75.00%).  Assigning the exact ratio `c / t * 100` to a
`DECIMAL(5,2)` variable rounds half away from zero; for the nonnegative
values that arise here this equals `round (10000 * c / t)` on `ℚ`,
which in turn equals the natural-number division
`(20000 * c + t) / (2 * t)`.  The lemma `progressHundredths_eq_round2`
proves this agreement against the rational-valued rounding function
`round2`.
-/

namespace KOrbit

/-- Status of a `lesson_progress` row (CHECK constraint in the schema). -/
inductive LPStatus
  | notStarted
  | inProgress
  | completed
deriving DecidableEq

/-- The `enrollment_status` enum of `course_enrollments`. -/
inductive EnrollStatus
  | notStarted
  | inProgress
  | completed
  | paused
deriving DecidableEq

/-- Source kinds of `xp_transactions` used by the trigger. -/
inductive XPSource
  | lessonCompletion
  | courseCompletion
deriving DecidableEq

/-- A row of the `lessons` table (fields the trigger touches). -/
structure LessonRow where
  lessonId : Nat
  courseId : Nat
  isRequired : Bool
deriving DecidableEq

/-- A row of the `lesson_progress` table (fields the trigger touches). -/
structure LPRow where
  lessonId : Nat
  userId : Nat
  enrollmentId : Nat
  status : LPStatus
deriving DecidableEq

/-- A row of the `course_enrollments` table (fields the trigger
touches); `progressPercentage` is in hundredths of a percent. -/
structure EnrollRow where
  enrollId : Nat
  courseId : Nat
  userId : Nat
  status : EnrollStatus
  progressPercentage : Nat
  completedLessons : List Nat
  completedAt : Option Nat
deriving DecidableEq

/-- A row of the `xp_transactions` ledger (fields the trigger writes). -/
structure XPRow where
  userId : Nat
  xpEarned : Int
  source : XPSource
  sourceId : Nat
deriving DecidableEq

/-- The database state seen by the trigger. -/
structure DB where
  lessons : List LessonRow
  lessonProgress : List LPRow
  enrollments : List EnrollRow
  xpTransactions : List XPRow
deriving DecidableEq

/-- Rounding a rational to two decimal places, as PostgreSQL does when
assigning to `DECIMAL(5,2)` (half away from zero; every value that
arises here is nonnegative, so `round` on `ℚ` agrees). -/
def round2 (q : ℚ) : ℚ := ((round (q * 100) : ℤ) : ℚ) / 100

/-- The trigger's progress computation
`(completed::DECIMAL / total::DECIMAL) * 100`, stored into a
`DECIMAL(5,2)`, expressed in hundredths of a percent:
`round (10000 * c / t)` computed with natural-number division. -/
def progressHundredths (c t : Nat) : Nat := (20000 * c + t) / (2 * t)

/-- SELECT course_id FROM lessons WHERE id = lid (`lessons.id` is the
primary key, so `find?` over the table matches the SQL lookup). -/
def courseIdOf (lessons : List LessonRow) (lid : Nat) : Option Nat :=
  (lessons.find? (fun l => l.lessonId == lid)).map (·.courseId)

/-- SELECT COUNT(*) FROM lessons WHERE course_id = cid. -/
def totalLessonsIn (lessons : List LessonRow) (cid : Nat) : Nat :=
  (lessons.filter (fun l => l.courseId == cid)).length

/-- The join/filter condition of the trigger's completed-lesson count:
the row belongs to the user, is completed, and its lesson's course is
`cid`. -/
def countsFor (lessons : List LessonRow) (u cid : Nat) (r : LPRow) : Bool :=
  r.userId == u && r.status == LPStatus.completed &&
    courseIdOf lessons r.lessonId == some cid

/-- SELECT COUNT(*) FROM lesson_progress lp JOIN lessons l ...: the
trigger's count of the user's completed lessons in the course. -/
def completedCountFor (lessons : List LessonRow) (lp : List LPRow) (u cid : Nat) : Nat :=
  (lp.filter (countsFor lessons u cid)).length

/-- Number of `course_completion` XP rows for a (user, course) pair. -/
def ccCount (xp : List XPRow) (u c : Nat) : Nat :=
  (xp.filter (fun x =>
    x.userId == u && x.source == XPSource.courseCompletion && x.sourceId == c)).length

/-- The trigger's firing condition: the lesson was just completed
(NEW.status = 'completed' AND (OLD.status IS NULL OR OLD.status != 'completed')). -/
def fireGuard (oldStatus : Option LPStatus) (new : LPRow) : Bool :=
  new.status == LPStatus.completed && !(oldStatus == some LPStatus.completed)

/-- The enrollment UPDATE performed by the trigger: set the recomputed
progress, move the status forward when warranted, stamp `completed_at`
at 100%, and `array_append` the lesson id to `completed_lessons`. -/
def enrollUpdate (now newProgress lid eid : Nat) (e : EnrollRow) : EnrollRow :=
  if e.enrollId == eid then
    { e with
      progressPercentage := newProgress,
      status :=
        if newProgress ≥ 10000 then EnrollStatus.completed
        else if newProgress > 0 then EnrollStatus.inProgress
        else e.status,
      completedAt := if newProgress ≥ 10000 then some now else e.completedAt,
      completedLessons := e.completedLessons ++ [lid] }
  else e

/-- The `update_course_progress` trigger function from `infra/schema.sql`.
`preOp` is the state before the triggering statement: it is returned on
the paths where the trigger raises an error (lesson lookup yielding NULL
or a zero lesson count, which makes the division fail), since the error
aborts the whole transaction including the row change.  `db` is the
state after the triggering row change (the trigger is AFTER ROW, so the
NEW row is visible to its counting queries). -/
def update_course_progress (now : Nat) (preOp db : DB) (oldStatus : Option LPStatus)
    (new : LPRow) : DB :=
  if fireGuard oldStatus new then
    match courseIdOf db.lessons new.lessonId with
    | none => preOp
    | some cid =>
      if totalLessonsIn db.lessons cid = 0 then preOp
      else
        let newProgress :=
          progressHundredths (completedCountFor db.lessons db.lessonProgress new.userId cid)
            (totalLessonsIn db.lessons cid)
        { db with
          enrollments := db.enrollments.map (enrollUpdate now newProgress new.lessonId new.enrollmentId),
          xpTransactions := db.xpTransactions ++
            (⟨new.userId, 50, XPSource.lessonCompletion, new.lessonId⟩ ::
              (if newProgress ≥ 10000 then
                [⟨new.userId, 200, XPSource.courseCompletion, cid⟩]
              else [])) }
  else db

/-- Lookup of the unique (UNIQUE(lesson_id, user_id)) progress row. -/
def findLP (db : DB) (l u : Nat) : Option LPRow :=
  db.lessonProgress.find? (fun r => r.lessonId == l && r.userId == u)

/-- A client-issued statement on the `lesson_progress` table: an INSERT
of a fresh row or an UPDATE of the row's status.  These are the
statements that fire the trigger. -/
inductive Op
  | ins (lessonId userId enrollmentId : Nat) (st : LPStatus)
  | upd (lessonId userId : Nat) (st : LPStatus)
deriving DecidableEq

/-- Execute one statement and the trigger it fires.  An INSERT violating
the lessons/enrollments foreign keys or UNIQUE(lesson_id, user_id)
aborts, leaving the state unchanged; an UPDATE matching no row is a
no-op. -/
def applyOp (now : Nat) (db : DB) : Op → DB
  | .ins l u e st =>
    if (courseIdOf db.lessons l).isSome && (findLP db l u == none) &&
        db.enrollments.any (fun er => er.enrollId == e) then
      let row : LPRow := ⟨l, u, e, st⟩
      let db' := { db with lessonProgress := db.lessonProgress ++ [row] }
      update_course_progress now db db' none row
    else db
  | .upd l u st =>
    match findLP db l u with
    | none => db
    | some old =>
      let row : LPRow := { old with status := st }
      let db' := { db with
        lessonProgress := db.lessonProgress.map (fun r =>
          if r.lessonId == l && r.userId == u then row else r) }
      update_course_progress now db db' (some old.status) row

/-- Run a list of statements, advancing the transaction timestamp. -/
def runOpsFrom (t : Nat) (db : DB) : List Op → DB
  | [] => db
  | op :: rest => runOpsFrom (t + 1) (applyOp t db op) rest

/-- Run a list of statements starting at time 0. -/
def runOps (db : DB) (ops : List Op) : DB := runOpsFrom 0 db ops

/-- The `calculate_user_level` function from `infra/schema.sql`:
GREATEST(1, (total_xp / 1000) + 1), where `/` is PostgreSQL integer
division, i.e. truncation toward zero (`Int.tdiv`). -/
def calculate_user_level (total_xp : Int) : Int :=
  max 1 (total_xp.tdiv 1000 + 1)

/-- Criteria kinds of the badge catalog (the `criteria.type` JSON field
of the `badges` seed rows in `infra/schema.sql`). -/
inductive CriteriaKind
  | lessonCompletion
  | courseCompletion
  | forumContribution
  | xpMilestone
  | streak
deriving DecidableEq

/-- Identifiers of the eight seeded badges, standing for their `name`
text values (First Steps, Getting Started, Knowledge Seeker, Expert
Learner, Helpful Helper, XP Master, Dedication, Overachiever). -/
inductive BadgeId
  | firstSteps
  | gettingStarted
  | knowledgeSeeker
  | expertLearner
  | helpfulHelper
  | xpMaster
  | dedication
  | overachiever
deriving DecidableEq

/-- Rarity enum of the `badges` table. -/
inductive Rarity
  | common
  | uncommon
  | rare
  | epic
  | legendary
deriving DecidableEq

/-- A row of the `badges` catalog. -/
structure Badge where
  badgeId : BadgeId
  criteriaType : CriteriaKind
  target : Nat
  xpReward : Int
  rarity : Rarity
deriving DecidableEq

/-- The eight badge rows inserted by the INITIAL DATA section of
`infra/schema.sql`, in insertion order. -/
def defaultBadges : List Badge :=
  [⟨.firstSteps, .lessonCompletion, 1, 25, .common⟩,
   ⟨.gettingStarted, .courseCompletion, 1, 100, .common⟩,
   ⟨.knowledgeSeeker, .courseCompletion, 5, 250, .uncommon⟩,
   ⟨.expertLearner, .courseCompletion, 10, 500, .rare⟩,
   ⟨.helpfulHelper, .forumContribution, 10, 200, .uncommon⟩,
   ⟨.xpMaster, .xpMilestone, 5000, 300, .rare⟩,
   ⟨.dedication, .streak, 30, 400, .epic⟩,
   ⟨.overachiever, .courseCompletion, 25, 1000, .legendary⟩]

/-- Modelled from the spec: the user aggregate a badge criterion is
evaluated against (total XP, courses completed, streak length, forum
contributions as supplied by the caller, plus the lesson-completion
counter).  The badge-evaluation engine itself is not part of the source
tree; only the badge catalog and the XP ledger are. -/
structure UserAggregate where
  lessonsCompleted : Nat
  coursesCompleted : Nat
  totalXP : Int
  streakDays : Nat
  forumContributions : Nat
deriving DecidableEq

/-- Modelled from the spec: a badge's typed criteria predicate,
matching the seeded `criteria.type`/`criteria.target` pairs against the
corresponding aggregate counter. -/
def criteriaMet (b : Badge) (a : UserAggregate) : Bool :=
  match b.criteriaType with
  | .lessonCompletion => b.target ≤ a.lessonsCompleted
  | .courseCompletion => b.target ≤ a.coursesCompleted
  | .forumContribution => b.target ≤ a.forumContributions
  | .xpMilestone => (b.target : Int) ≤ a.totalXP
  | .streak => b.target ≤ a.streakDays

/-- Modelled from the spec: the outcome of one badge evaluation pass:
the `BadgeUnlocked` events in catalog order, the XP grant amounts for
those badges, and the `user_badges` holdings after the pass. -/
structure BadgeOutcome where
  unlocked : List Badge
  xpGrants : List Int
  newHeld : List BadgeId
deriving DecidableEq

/-- Modelled from the spec: after updating XP totals and completion
counters, evaluate every active badge's criteria against the user's
updated aggregate; each badge whose criteria hold and which the user
does not already hold is unlocked exactly once, granted its XP reward,
and recorded as a `user_badges` row. -/
def evaluateBadges (catalog : List Badge) (held : List BadgeId) (a : UserAggregate) :
    BadgeOutcome :=
  let newly := catalog.filter (fun b => criteriaMet b a && !(held.contains b.badgeId))
  ⟨newly, newly.map (·.xpReward), held ++ newly.map (·.badgeId)⟩

/-- The user aggregate induced by the database state: completion
counters are read off the XP ledger the trigger writes, and the
caller-supplied streak and forum counters are passed through. -/
def aggregateOf (db : DB) (u streak forum : Nat) : UserAggregate :=
  { lessonsCompleted :=
      (db.xpTransactions.filter (fun x =>
        x.userId == u && x.source == XPSource.lessonCompletion)).length,
    coursesCompleted :=
      (db.xpTransactions.filter (fun x =>
        x.userId == u && x.source == XPSource.courseCompletion)).length,
    totalXP := ((db.xpTransactions.filter (fun x => x.userId == u)).map (·.xpEarned)).sum,
    streakDays := streak,
    forumContributions := forum }

/-!
Client session model, translated from the `WebSocketProvider` component
of the frontend socket provider (`connect`, `disconnect`,
`scheduleReconnect`, `startHeartbeat`, `stopHeartbeat`, `sendMessage`,
`subscribe`, `unsubscribe` and the `onopen`/`onmessage`/`onclose`/
`onerror` handlers).  Timers are counted explicitly: `pendingTimers` is
the number of live reconnection timeouts and `refSet` records whether
`reconnectTimeoutRef.current` holds one; every `setTimeout`/
`clearTimeout`/expiry in the source pairs a ref write with a timer
creation or destruction, which the model reproduces.
-/

/-- Ready states of the underlying `WebSocket` object (`opened` stands
for the OPEN ready state). -/
inductive SockState
  | connecting
  | opened
  | closing
  | closed
deriving DecidableEq

/-- Message types recognized by the provider's `handleMessage` switch
and the outbound control messages. -/
inductive MsgType
  | ping
  | pong
  | subscribeMsg
  | unsubscribeMsg
  | xpEarned
  | badgeEarned
  | forumNotification
  | courseNotification
  | systemNotification
  | other
deriving DecidableEq

/-- A parsed WebSocket frame: its `type` field and, for control
messages, the room id. -/
structure WSMessage where
  type : MsgType
  room : Option Nat
deriving DecidableEq

/-- State of the client session: the socket ref and its ready state,
the React state mirrors (`isConnected`, `lastMessage`), the reconnect
and heartbeat timer refs, and the auth context (`user`,
`session.access_token`). -/
structure ClientState where
  sock : Option SockState
  isConnected : Bool
  lastMessage : Option WSMessage
  refSet : Bool
  pendingTimers : Nat
  heartbeatOn : Bool
  user : Bool
  hasToken : Bool
deriving DecidableEq

/-- Events driving the session: socket callbacks (`evOpen`,
`evMessage` with the result of `JSON.parse`, `evClose` with its close
code, `evError`), the provider's own calls (`evConnect`,
`evDisconnect`, reconnect-timer expiry, heartbeat-interval tick), and
the exposed API (`evSend`, `evSubscribe`, `evUnsubscribe`). -/
inductive CEvent
  | evOpen
  | evMessage (parsed : Option WSMessage)
  | evClose (code : Nat)
  | evError
  | evConnect
  | evDisconnect
  | evReconnectFire
  | evHeartbeatTick
  | evSend (m : WSMessage)
  | evSubscribe (room : Nat)
  | evUnsubscribe (room : Nat)
deriving DecidableEq

/-- `scheduleReconnect` from the source: if a reconnection is already
scheduled (`reconnectTimeoutRef.current` non-null) return immediately,
otherwise create one 5-second timeout and store it in the ref. -/
def scheduleReconnect (s : ClientState) : ClientState :=
  if s.refSet then s
  else { s with refSet := true, pendingTimers := s.pendingTimers + 1 }

/-- Clearing the reconnect ref (`clearTimeout` + null assignment), as
done in `onopen` and `disconnect`. -/
def clearReconnect (s : ClientState) : ClientState :=
  if s.refSet then { s with refSet := false, pendingTimers := s.pendingTimers - 1 }
  else s

/-- `connect` from the source: a no-op when the socket is already OPEN
or no access token is available; otherwise a new socket is created in
the CONNECTING state. -/
def connectFn (s : ClientState) : ClientState :=
  if s.sock == some SockState.opened then s
  else if s.hasToken = false then s
  else { s with sock := some SockState.connecting }

/-- The ping heartbeat frame. -/
def pingMsg : WSMessage := ⟨MsgType.ping, none⟩

/-- The subscribe control frame for a room. -/
def subMsg (room : Nat) : WSMessage := ⟨MsgType.subscribeMsg, some room⟩

/-- The unsubscribe control frame for a room. -/
def unsubMsg (room : Nat) : WSMessage := ⟨MsgType.unsubscribeMsg, some room⟩

/-- One step of the client session: the state after the event and the
list of frames written to the socket during it.  Each branch mirrors
the corresponding source handler; in particular `onmessage` wraps
`JSON.parse` in try/catch and does nothing on a parse error, `onclose`
stops the heartbeat and schedules a reconnect only for non-1000 close
codes while a user is logged in, and `onerror` only logs. -/
def step (s : ClientState) : CEvent → ClientState × List WSMessage
  | .evConnect => (connectFn s, [])
  | .evOpen =>
    if s.sock == some SockState.connecting then
      (clearReconnect { s with
        sock := some SockState.opened, isConnected := true, heartbeatOn := true }, [])
    else (s, [])
  | .evMessage parsed =>
    match parsed with
    | some m => ({ s with lastMessage := some m }, [])
    | none => (s, [])
  | .evClose code =>
    if code ≠ 1000 ∧ s.user = true then
      (scheduleReconnect { s with
        sock := some SockState.closed, isConnected := false, heartbeatOn := false }, [])
    else
      ({ s with
        sock := some SockState.closed, isConnected := false, heartbeatOn := false }, [])
  | .evError => (s, [])
  | .evDisconnect =>
    (clearReconnect { s with
      sock := none, isConnected := false, heartbeatOn := false }, [])
  | .evReconnectFire =>
    if s.refSet then
      (if s.user = true then
        connectFn { s with refSet := false, pendingTimers := s.pendingTimers - 1 }
      else
        { s with refSet := false, pendingTimers := s.pendingTimers - 1 }, [])
    else (s, [])
  | .evHeartbeatTick =>
    if s.heartbeatOn = true ∧ s.sock = some SockState.opened then (s, [pingMsg])
    else (s, [])
  | .evSend m =>
    if s.sock == some SockState.opened then (s, [m]) else (s, [])
  | .evSubscribe room =>
    if s.sock == some SockState.opened then (s, [subMsg room]) else (s, [])
  | .evUnsubscribe room =>
    if s.sock == some SockState.opened then (s, [unsubMsg room]) else (s, [])

/-- The session state on mount: no socket, no timers, no heartbeat. -/
def initState (user hasToken : Bool) : ClientState :=
  ⟨none, false, none, false, 0, false, user, hasToken⟩

/-- The reconnect-timer invariant: at most one reconnection timeout is
live, and the ref holds one exactly when one is live. -/
@[reducible] def ReconInv (s : ClientState) : Prop :=
  s.pendingTimers ≤ 1 ∧ (s.refSet = true ↔ s.pendingTimers = 1)

/-- UNIQUE(lesson_id, user_id) on `lesson_progress`: no two rows share
a (lesson, user) key. -/
@[reducible] def uniqueLP (lp : List LPRow) : Prop :=
  lp.Pairwise fun a b => ¬(a.lessonId = b.lessonId ∧ a.userId = b.userId)

/-- Schema-level shape of a database state: the `lesson_progress`
unique constraint, the `lesson_progress.lesson_id` foreign key, and the
`lessons.id` / `course_enrollments.id` primary keys. -/
@[reducible] def WfBase (db : DB) : Prop :=
  uniqueLP db.lessonProgress ∧
  (∀ r ∈ db.lessonProgress, (courseIdOf db.lessons r.lessonId).isSome = true) ∧
  db.lessons.Pairwise (fun a b => a.lessonId ≠ b.lessonId) ∧
  db.enrollments.Pairwise (fun a b => a.enrollId ≠ b.enrollId)

/-- Every course present in the catalog has fewer than 20000 lessons
(below this bound the two-decimal rounding cannot reach 100.00 early). -/
@[reducible] def smallCourses (db : DB) : Prop :=
  ∀ l ∈ db.lessons, totalLessonsIn db.lessons l.courseId < 20000

/-- An UPDATE statement never moves a `lesson_progress` row out of the
`completed` status (the spec's forward-only status invariant); INSERTs
are unrestricted. -/
def opMonotone (db : DB) : Op → Bool
  | .upd l u st =>
    match findLP db l u with
    | some old => !(old.status == LPStatus.completed) || (st == LPStatus.completed)
    | none => true
  | .ins _ _ _ _ => true

/-- An INSERT only targets an enrollment row belonging to the same
user (what the application's row-level security and enrollment lookup
guarantee); UPDATEs carry no enrollment id. -/
def opOwned (db : DB) : Op → Bool
  | .ins _ u e _ =>
    db.enrollments.all (fun er => !(er.enrollId == e) || (er.userId == u))
  | .upd _ _ _ => true

/-- A statement trace is monotone when each statement is monotone in
the state it executes against. -/
def traceMonotoneFrom (t : Nat) (db : DB) : List Op → Bool
  | [] => true
  | op :: rest => opMonotone db op && traceMonotoneFrom (t + 1) (applyOp t db op) rest

/-- A statement trace is owned when each INSERT targets an enrollment
of its own user, in the state it executes against. -/
def traceOwnedFrom (t : Nat) (db : DB) : List Op → Bool
  | [] => true
  | op :: rest => opOwned db op && traceOwnedFrom (t + 1) (applyOp t db op) rest

/-- Inductive invariant for the exactly-once bonus: schema shape,
small courses, and — per (user, course) — at most one course-completion
XP row, which once present certifies that the user's completed count
has reached the course's lesson count. -/
@[reducible] def InvC1 (db : DB) : Prop :=
  WfBase db ∧ smallCourses db ∧
  ∀ u c, ccCount db.xpTransactions u c ≤ 1 ∧
    (1 ≤ ccCount db.xpTransactions u c →
      totalLessonsIn db.lessons c ≤ completedCountFor db.lessons db.lessonProgress u c)

/-- Each progress row points at an enrollment of its own user. -/
@[reducible] def lpOwn (db : DB) : Prop :=
  ∀ r ∈ db.lessonProgress, ∀ e ∈ db.enrollments,
    e.enrollId = r.enrollmentId → e.userId = r.userId

/-- Inductive invariant for duplicate-free completed-lessons arrays:
schema shape, enrollment ownership, and — per enrollment — an array
without duplicates each of whose entries is certified by a completed
progress row of the enrollment's user. -/
@[reducible] def InvC6 (db : DB) : Prop :=
  WfBase db ∧ lpOwn db ∧
  ∀ e ∈ db.enrollments, e.completedLessons.Nodup ∧
    ∀ lid ∈ e.completedLessons, ∃ r ∈ db.lessonProgress,
      r.lessonId = lid ∧ r.userId = e.userId ∧ r.status = LPStatus.completed

/-- The required lessons of a course. -/
def requiredOf (db : DB) (c : Nat) : List LessonRow :=
  db.lessons.filter (fun l => l.courseId == c && l.isRequired)

/-- The required lessons of a course the user has completed. -/
def completedRequiredOf (db : DB) (u c : Nat) : List LessonRow :=
  (requiredOf db c).filter (fun l =>
    db.lessonProgress.any (fun r =>
      r.lessonId == l.lessonId && r.userId == u && r.status == LPStatus.completed))

/-- The progress formula as the spec states it: the share of the
course's required lessons the user has completed, times 100, rounded to
two decimals. -/
def specProgressRequired (db : DB) (u c : Nat) : ℚ :=
  round2 (((completedRequiredOf db u c).length : ℚ) / ((requiredOf db c).length : ℚ) * 100)

/-- Scenario A: a course (id 1) with four required lessons and user 7
enrolled (enrollment id 1) with no prior progress. -/
def scnDb : DB :=
  { lessons := [⟨1, 1, true⟩, ⟨2, 1, true⟩, ⟨3, 1, true⟩, ⟨4, 1, true⟩],
    lessonProgress := [],
    enrollments := [⟨1, 1, 7, EnrollStatus.notStarted, 0, [], none⟩],
    xpTransactions := [] }

/-- Scenario A, first phase: user 7 completes lessons 1–3. -/
def scnOps3 : List Op :=
  [Op.ins 1 7 1 LPStatus.completed, Op.ins 2 7 1 LPStatus.completed,
   Op.ins 3 7 1 LPStatus.completed]

/-- Scenario A, both phases: user 7 completes lessons 1–4. -/
def scnOps4 : List Op := scnOps3 ++ [Op.ins 4 7 1 LPStatus.completed]

/-- A course with a single lesson, user 7 enrolled with no progress. -/
def oneLessonDb : DB :=
  { lessons := [⟨1, 1, true⟩],
    lessonProgress := [],
    enrollments := [⟨1, 1, 7, EnrollStatus.notStarted, 0, [], none⟩],
    xpTransactions := [] }

/-- Complete the lesson, revert it to in-progress, complete it again:
three legal `lesson_progress` statements. -/
def revertOps : List Op :=
  [Op.ins 1 7 1 LPStatus.completed, Op.upd 1 7 LPStatus.inProgress,
   Op.upd 1 7 LPStatus.completed]

/-- A course (id 1) whose lesson 1 is required and lesson 2 is not,
user 7 enrolled with no prior progress. -/
def cx3Db : DB :=
  { lessons := [⟨1, 1, true⟩, ⟨2, 1, false⟩],
    lessonProgress := [],
    enrollments := [⟨1, 1, 7, EnrollStatus.notStarted, 0, [], none⟩],
    xpTransactions := [] }

/-- A database with one completed progress row for (lesson 1, user 7). -/
def cx2Db : DB :=
  { lessons := [⟨1, 1, true⟩],
    lessonProgress := [⟨1, 7, 1, LPStatus.completed⟩],
    enrollments := [⟨1, 1, 7, EnrollStatus.completed, 10000, [1], some 0⟩],
    xpTransactions := [⟨7, 50, XPSource.lessonCompletion, 1⟩,
      ⟨7, 200, XPSource.courseCompletion, 1⟩] }

/-- A connected client session: socket OPEN, heartbeat running, no
reconnection pending, user logged in. -/
def cx7State : ClientState :=
  ⟨some SockState.opened, true, none, false, 0, true, true, true⟩

/-- Under UNIQUE(lesson_id, user_id), two rows with the same key are
the same row. -/
theorem lp_key_unique {L : List LPRow} (h : uniqueLP L) {a b : LPRow}
    (ha : a ∈ L) (hb : b ∈ L)
    (hk : a.lessonId = b.lessonId ∧ a.userId = b.userId) : a = b := by
  induction L with
  | nil => cases ha
  | cons x xs ih =>
    rcases List.pairwise_cons.mp h with ⟨hx, hxs⟩
    rcases List.mem_cons.mp ha with rfl | ha' <;>
      rcases List.mem_cons.mp hb with rfl | hb'
    · rfl
    · exact absurd hk (hx _ hb')
    · exact absurd ⟨hk.1.symm, hk.2.symm⟩ (hx _ ha')
    · exact ih hxs ha' hb'

/-- C2.  Marking a lesson completed is idempotent: if the
(lesson, user) progress row is already `completed`, re-issuing the
completing UPDATE leaves the whole database — the enrollment's
progress, status, completed-lessons array and `completed_at`, and the
XP ledger — unchanged, inserting no new XP transactions. -/
theorem korbit_c2 (now : Nat) (db : DB) (l u : Nat) (row : LPRow)
    (hU : uniqueLP db.lessonProgress)
    (hf : findLP db l u = some row) (hc : row.status = LPStatus.completed) :
    applyOp now db (Op.upd l u LPStatus.completed) = db := by
  have hrowMem : row ∈ db.lessonProgress := List.mem_of_find?_eq_some hf
  have hrowKey : row.lessonId = l ∧ row.userId = u := by
    have := List.find?_some hf
    simpa using this
  have hrow2 : { row with status := LPStatus.completed } = row := by
    cases row
    simp_all
  simp only [applyOp, hf, hrow2]
  have hguard : fireGuard (some row.status) row = false := by
    simp [fireGuard, hc]
  rw [update_course_progress, hguard]
  simp only [Bool.false_eq_true, if_false]
  have hmap : db.lessonProgress.map
      (fun r => if r.lessonId == l && r.userId == u then row else r) =
      db.lessonProgress := by
    apply List.map_congr_left ?_ |>.trans (List.map_id _)
    intro r hr
    by_cases hkey : (r.lessonId == l && r.userId == u) = true
    · have hk : r.lessonId = l ∧ r.userId = u := by simpa using hkey
      have : r = row :=
        lp_key_unique hU hr hrowMem ⟨hk.1.trans hrowKey.1.symm, hk.2.trans hrowKey.2.symm⟩
      simp [hkey, this]
    · simp [hkey]
  rw [hmap]

/-- C2 witness: re-completing the already-completed lesson 1 of the
one-lesson course leaves the database unchanged. -/
theorem korbit_c2_w :
    applyOp 5 cx2Db (Op.upd 1 7 LPStatus.completed) = cx2Db :=
  korbit_c2 5 cx2Db 1 7 ⟨1, 7, 1, LPStatus.completed⟩ (by decide) (by decide) rfl

/-- C4.  Scenario A: with a four-lesson course and a fresh enrollment,
completing lessons 1–3 yields progress 75.00, status in_progress,
exactly three 50-XP lesson-completion grants and no course bonus;
completing lesson 4 yields progress 100.00, status completed,
`completed_at` set, one more 50-XP grant and exactly one 200-XP
course-completion bonus. -/
theorem korbit_c4 :
    (runOps scnDb scnOps3).enrollments =
      [⟨1, 1, 7, EnrollStatus.inProgress, 7500, [1, 2, 3], none⟩] ∧
    (runOps scnDb scnOps3).xpTransactions =
      [⟨7, 50, XPSource.lessonCompletion, 1⟩, ⟨7, 50, XPSource.lessonCompletion, 2⟩,
       ⟨7, 50, XPSource.lessonCompletion, 3⟩] ∧
    (runOps scnDb scnOps4).enrollments =
      [⟨1, 1, 7, EnrollStatus.completed, 10000, [1, 2, 3, 4], some 3⟩] ∧
    (runOps scnDb scnOps4).xpTransactions =
      [⟨7, 50, XPSource.lessonCompletion, 1⟩, ⟨7, 50, XPSource.lessonCompletion, 2⟩,
       ⟨7, 50, XPSource.lessonCompletion, 3⟩, ⟨7, 50, XPSource.lessonCompletion, 4⟩,
       ⟨7, 200, XPSource.courseCompletion, 1⟩] := by
  decide

/-- C8.  `calculate_user_level` is GREATEST(1, total_xp / 1000 + 1)
under truncating division, is always at least 1, and is non-decreasing
on nonnegative inputs. -/
theorem korbit_c8 (x y : Int) :
    calculate_user_level x = max 1 (x.tdiv 1000 + 1) ∧
    1 ≤ calculate_user_level x ∧
    (0 ≤ x → x ≤ y → calculate_user_level x ≤ calculate_user_level y) := by
  refine ⟨rfl, le_max_left _ _, fun hx hxy => ?_⟩
  unfold calculate_user_level
  have h1 : x.tdiv 1000 ≤ y.tdiv 1000 := by
    rw [Int.tdiv_eq_ediv hx (by norm_num), Int.tdiv_eq_ediv (hx.trans hxy) (by norm_num)]
    exact Int.ediv_le_ediv (by norm_num) hxy
  exact max_le_max le_rfl (by omega)

/-- C8 witness at total_xp = 1500 and 2500. -/
theorem korbit_c8_w :
    calculate_user_level 1500 = max 1 ((1500 : Int).tdiv 1000 + 1) ∧
    1 ≤ calculate_user_level 1500 ∧
    (0 ≤ (1500 : Int) → (1500 : Int) ≤ 2500 →
      calculate_user_level 1500 ≤ calculate_user_level 2500) :=
  korbit_c8 1500 2500

/-- C10.  A frame whose data fails to parse is swallowed by the
try/catch in `onmessage`: the state (in particular `lastMessage` and
the socket) is unchanged and nothing is sent or surfaced. -/
theorem korbit_c10 (s : ClientState) :
    step s (CEvent.evMessage none) = (s, []) ∧
    (step s (CEvent.evMessage none)).1.lastMessage = s.lastMessage ∧
    (step s (CEvent.evMessage none)).1.sock = s.sock :=
  ⟨rfl, rfl, rfl⟩

/-- C9.  When the socket is not OPEN, `sendMessage` — hence `subscribe`
and `unsubscribe` — sends nothing, raises nothing, and leaves the
session state unchanged (no queueing for later delivery). -/
theorem korbit_c9 (s : ClientState) (m : WSMessage) (r₁ r₂ : Nat)
    (h : s.sock ≠ some SockState.opened) :
    step s (CEvent.evSend m) = (s, []) ∧
    step s (CEvent.evSubscribe r₁) = (s, []) ∧
    step s (CEvent.evUnsubscribe r₂) = (s, []) := by
  have hb : (s.sock == some SockState.opened) = false := by
    simpa using h
  refine ⟨?_, ?_, ?_⟩ <;> simp [step, hb]

/-- C9 witness: on the freshly mounted session (no socket), a send, a
subscribe and an unsubscribe are all dropped. -/
theorem korbit_c9_w :
    step (initState true true) (CEvent.evSend pingMsg) = (initState true true, []) ∧
    step (initState true true) (CEvent.evSubscribe 1) = (initState true true, []) ∧
    step (initState true true) (CEvent.evUnsubscribe 2) = (initState true true, []) :=
  korbit_c9 (initState true true) pingMsg 1 2 (by decide)

/-- Clearing the reconnect ref preserves the timer invariant. -/
theorem recon_clear {s : ClientState} (h : ReconInv s) : ReconInv (clearReconnect s) := by
  obtain ⟨h1, h2⟩ := h
  unfold clearReconnect
  split_ifs with hr
  · have hpt : s.pendingTimers = 1 := h2.mp hr
    exact ⟨by simp [hpt], by simp [hpt]⟩
  · exact ⟨h1, h2⟩

/-- Scheduling a reconnect preserves the timer invariant. -/
theorem recon_sched {s : ClientState} (h : ReconInv s) : ReconInv (scheduleReconnect s) := by
  obtain ⟨h1, h2⟩ := h
  unfold scheduleReconnect
  split_ifs with hr
  · exact ⟨h1, h2⟩
  · have hpt : s.pendingTimers ≠ 1 := fun hp => hr (h2.mpr hp)
    have hz : s.pendingTimers = 0 := by omega
    exact ⟨by simp [hz], by simp [hz]⟩

/-- C7 as amended: every event preserves the at-most-one-reconnect-
timer invariant (which holds initially); a close event always stops the
heartbeat; a non-1000 close with a logged-in user and no pending timer
schedules exactly one; a user-initiated close (code 1000 or logged-out
user) schedules none; a close arriving while a timer is pending stacks
no additional one; and an error event changes nothing — cleanup happens
on the close event that follows it. -/
theorem korbit_c7 (s : ClientState) (e : CEvent) (code : Nat) (hInv : ReconInv s) :
    ReconInv (step s e).1 ∧
    ReconInv (initState s.user s.hasToken) ∧
    (step s (CEvent.evClose code)).1.heartbeatOn = false ∧
    (code ≠ 1000 → s.user = true → s.pendingTimers = 0 →
      (step s (CEvent.evClose code)).1.pendingTimers = 1) ∧
    ((code = 1000 ∨ s.user = false) →
      (step s (CEvent.evClose code)).1.pendingTimers = s.pendingTimers) ∧
    (s.pendingTimers = 1 → (step s (CEvent.evClose code)).1.pendingTimers = 1) ∧
    step s CEvent.evError = (s, []) := by
  obtain ⟨h1, h2⟩ := hInv
  refine ⟨?_, ?_, ?_, ?_, ?_, ?_, rfl⟩
  · cases e with
    | evConnect =>
      simp only [step, connectFn]
      split_ifs <;> exact ⟨h1, h2⟩
    | evOpen =>
      simp only [step]
      split_ifs with hs
      · exact recon_clear ⟨h1, h2⟩
      · exact ⟨h1, h2⟩
    | evMessage p => cases p <;> exact ⟨h1, h2⟩
    | evClose c =>
      simp only [step]
      split_ifs with hc
      · exact recon_sched ⟨h1, h2⟩
      · exact ⟨h1, h2⟩
    | evError => exact ⟨h1, h2⟩
    | evDisconnect => exact recon_clear ⟨h1, h2⟩
    | evReconnectFire =>
      simp only [step]
      split_ifs with hr hu
      · have hpt : s.pendingTimers = 1 := h2.mp hr
        simp only [connectFn]
        split_ifs <;> exact ⟨by simp [hpt], by simp [hpt]⟩
      · have hpt : s.pendingTimers = 1 := h2.mp hr
        exact ⟨by simp [hpt], by simp [hpt]⟩
      · exact ⟨h1, h2⟩
    | evHeartbeatTick =>
      simp only [step]
      split_ifs <;> exact ⟨h1, h2⟩
    | evSend m =>
      simp only [step]
      split_ifs <;> exact ⟨h1, h2⟩
    | evSubscribe r =>
      simp only [step]
      split_ifs <;> exact ⟨h1, h2⟩
    | evUnsubscribe r =>
      simp only [step]
      split_ifs <;> exact ⟨h1, h2⟩
  · exact ⟨by simp [initState], by simp [initState]⟩
  · simp only [step]
    split_ifs with hcl
    · simp only [scheduleReconnect]
      split_ifs <;> rfl
    · rfl
  · intro hc hu hp
    have hrs : s.refSet = false := by
      cases hbool : s.refSet
      · rfl
      · have := h2.mp hbool
        omega
    simp [step, hc, hu, scheduleReconnect, hrs, hp]
  · intro h
    rcases h with h | h <;> simp [step, h]
  · intro hp
    have hrs : s.refSet = true := h2.mpr hp
    simp only [step]
    split_ifs with hcl
    · simp [scheduleReconnect, hrs, hp]
    · simp [hp]

/-- C7 witness: the invariant and close/error behavior at the freshly
mounted logged-in session, for close code 1006. -/
theorem korbit_c7_w :
    ReconInv (step (initState true true) CEvent.evOpen).1 ∧
    ReconInv (initState (initState true true).user (initState true true).hasToken) ∧
    (step (initState true true) (CEvent.evClose 1006)).1.heartbeatOn = false ∧
    ((1006 : Nat) ≠ 1000 → (initState true true).user = true →
      (initState true true).pendingTimers = 0 →
      (step (initState true true) (CEvent.evClose 1006)).1.pendingTimers = 1) ∧
    (((1006 : Nat) = 1000 ∨ (initState true true).user = false) →
      (step (initState true true) (CEvent.evClose 1006)).1.pendingTimers =
        (initState true true).pendingTimers) ∧
    ((initState true true).pendingTimers = 1 →
      (step (initState true true) (CEvent.evClose 1006)).1.pendingTimers = 1) ∧
    step (initState true true) CEvent.evError = (initState true true, []) :=
  korbit_c7 (initState true true) CEvent.evOpen 1006 (by constructor <;> simp [initState])

/-- C7 counterexample: in a connected session with the heartbeat
running, an error signal leaves the state untouched — the heartbeat is
not stopped and no reconnection is scheduled — contradicting the claim
that any error signal stops heartbeats and schedules a reconnection
attempt. -/
theorem korbit_c7_cx :
    cx7State.heartbeatOn = true ∧ cx7State.user = true ∧
    step cx7State CEvent.evError = (cx7State, []) ∧
    (step cx7State CEvent.evError).1.heartbeatOn = true ∧
    (step cx7State CEvent.evError).1.pendingTimers = 0 := by
  refine ⟨rfl, rfl, rfl, rfl, rfl⟩

/-- C5.  After the completion that finishes the user's first course
(the final step of Scenario A), one badge-evaluation pass over the
seeded catalog unlocks the Getting Started badge (criteria: first
course completed) exactly once for any prior holdings not containing
it, grants its 100-XP reward, and records the user_badges row. -/
theorem korbit_c5 (held : List BadgeId) (streak forum : Nat)
    (hheld : BadgeId.gettingStarted ∉ held) :
    ((evaluateBadges defaultBadges held
        (aggregateOf (runOps scnDb scnOps4) 7 streak forum)).unlocked.filter
      (fun b => b.badgeId == BadgeId.gettingStarted)) =
      [⟨BadgeId.gettingStarted, CriteriaKind.courseCompletion, 1, 100, Rarity.common⟩] ∧
    (⟨BadgeId.gettingStarted, CriteriaKind.courseCompletion, 1, 100,
        Rarity.common⟩ : Badge).xpReward = 100 ∧
    BadgeId.gettingStarted ∈ (evaluateBadges defaultBadges held
      (aggregateOf (runOps scnDb scnOps4) 7 streak forum)).newHeld := by
  have hagg : aggregateOf (runOps scnDb scnOps4) 7 streak forum =
      ⟨4, 1, 400, streak, forum⟩ := rfl
  rw [hagg]
  refine ⟨?_, rfl, ?_⟩
  · simp [evaluateBadges, List.filter_filter, defaultBadges, criteriaMet, hheld]
  · have hmem : (⟨BadgeId.gettingStarted, CriteriaKind.courseCompletion, 1, 100,
        Rarity.common⟩ : Badge) ∈
        (evaluateBadges defaultBadges held (⟨4, 1, 400, streak, forum⟩ : UserAggregate)).unlocked := by
      simp [evaluateBadges, List.mem_filter, defaultBadges, criteriaMet, hheld]
    simp only [evaluateBadges] at hmem ⊢
    exact List.mem_append.mpr (Or.inr (List.mem_map.mpr ⟨_, hmem, rfl⟩))

/-- C5 witness: the evaluation pass with no badges yet held, streak 0
and no forum contributions. -/
theorem korbit_c5_w :
    ((evaluateBadges defaultBadges []
        (aggregateOf (runOps scnDb scnOps4) 7 0 0)).unlocked.filter
      (fun b => b.badgeId == BadgeId.gettingStarted)) =
      [⟨BadgeId.gettingStarted, CriteriaKind.courseCompletion, 1, 100, Rarity.common⟩] ∧
    (⟨BadgeId.gettingStarted, CriteriaKind.courseCompletion, 1, 100,
        Rarity.common⟩ : Badge).xpReward = 100 ∧
    BadgeId.gettingStarted ∈ (evaluateBadges defaultBadges []
      (aggregateOf (runOps scnDb scnOps4) 7 0 0)).newHeld :=
  korbit_c5 [] 0 0 (by decide)

/-- Agreement of the trigger's scaled-integer progress value with the
spec's two-decimal rounding of the percentage ratio. -/
theorem progressHundredths_eq_round2 (c t : Nat) (ht : t ≠ 0) :
    ((progressHundredths c t : ℚ)) / 100 = round2 ((c : ℚ) / (t : ℚ) * 100) := by
  have ht' : (0 : ℚ) < t := by
    exact_mod_cast Nat.pos_of_ne_zero ht
  have ht0 : (t : ℚ) ≠ 0 := ne_of_gt ht'
  have key : round ((c : ℚ) / (t : ℚ) * 100 * 100) = (((20000 * c + t) / (2 * t) : ℕ) : ℤ) := by
    rw [round_eq]
    have harg : (c : ℚ) / (t : ℚ) * 100 * 100 + 1 / 2 =
        ((20000 * c + t : ℕ) : ℚ) / ((2 * t : ℕ) : ℚ) := by
      push_cast
      field_simp
      ring
    rw [harg, Rat.floor_natCast_div_natCast]
    exact (Int.ofNat_ediv _ _).symm
  unfold round2 progressHundredths
  rw [key]
  congr 1

/-- C3 as amended: on a newly completed lesson the trigger stores, as
the enrollment's new progress, the user's completed-lesson count over
the course's total lesson count (required or not), times 100, rounded
to two decimals — not the required-lessons ratio the claim states. -/
theorem korbit_c3 (now : Nat) (preOp db : DB) (oldSt : Option LPStatus) (new : LPRow)
    (cid : Nat) (e₀ : EnrollRow)
    (hfire : fireGuard oldSt new = true)
    (hcid : courseIdOf db.lessons new.lessonId = some cid)
    (htot : totalLessonsIn db.lessons cid ≠ 0)
    (he : e₀ ∈ db.enrollments) (hid : e₀.enrollId = new.enrollmentId) :
    ∃ e₁ ∈ (update_course_progress now preOp db oldSt new).enrollments,
      e₁.enrollId = new.enrollmentId ∧
      e₁.progressPercentage =
        progressHundredths (completedCountFor db.lessons db.lessonProgress new.userId cid)
          (totalLessonsIn db.lessons cid) ∧
      (e₁.progressPercentage : ℚ) / 100 =
        round2 ((completedCountFor db.lessons db.lessonProgress new.userId cid : ℚ) /
          (totalLessonsIn db.lessons cid : ℚ) * 100) := by
  have hidb : (e₀.enrollId == new.enrollmentId) = true := by simpa using hid
  refine ⟨enrollUpdate now
      (progressHundredths (completedCountFor db.lessons db.lessonProgress new.userId cid)
        (totalLessonsIn db.lessons cid)) new.lessonId new.enrollmentId e₀, ?_, ?_, ?_, ?_⟩
  · rw [update_course_progress, hfire, hcid]
    simp only [if_true, htot, if_false]
    exact List.mem_map_of_mem _ he
  · simp [enrollUpdate, hidb, hid]
  · simp [enrollUpdate, hidb]
  · simp only [enrollUpdate, hidb, if_true]
    exact progressHundredths_eq_round2 _ _ htot

/-- C3 witness: the trigger applied to a freshly completed lesson 1 of
the two-lesson course. -/
theorem korbit_c3_w :
    ∃ e₁ ∈ (update_course_progress 0 cx3Db
        { cx3Db with lessonProgress := [⟨1, 7, 1, LPStatus.completed⟩] }
        none ⟨1, 7, 1, LPStatus.completed⟩).enrollments,
      e₁.enrollId = (⟨1, 7, 1, LPStatus.completed⟩ : LPRow).enrollmentId ∧
      e₁.progressPercentage =
        progressHundredths
          (completedCountFor
            ({ cx3Db with lessonProgress := [⟨1, 7, 1, LPStatus.completed⟩] } : DB).lessons
            ({ cx3Db with lessonProgress := [⟨1, 7, 1, LPStatus.completed⟩] } : DB).lessonProgress
            7 1)
          (totalLessonsIn
            ({ cx3Db with lessonProgress := [⟨1, 7, 1, LPStatus.completed⟩] } : DB).lessons 1) ∧
      (e₁.progressPercentage : ℚ) / 100 =
        round2 ((completedCountFor
            ({ cx3Db with lessonProgress := [⟨1, 7, 1, LPStatus.completed⟩] } : DB).lessons
            ({ cx3Db with lessonProgress := [⟨1, 7, 1, LPStatus.completed⟩] } : DB).lessonProgress
            7 1 : ℚ) /
          (totalLessonsIn
            ({ cx3Db with lessonProgress := [⟨1, 7, 1, LPStatus.completed⟩] } : DB).lessons 1 : ℚ) *
          100) :=
  korbit_c3 0 cx3Db { cx3Db with lessonProgress := [⟨1, 7, 1, LPStatus.completed⟩] }
    none ⟨1, 7, 1, LPStatus.completed⟩ 1 ⟨1, 1, 7, EnrollStatus.notStarted, 0, [], none⟩
    (by decide) (by decide) (by decide) (by decide) rfl

/-- C3 counterexample: in a course whose lesson 1 is required and
lesson 2 is not, completing lesson 1 stores progress 50.00 while the
claim's required-lessons formula yields 100.00. -/
theorem korbit_c3_cx :
    (runOps cx3Db [Op.ins 1 7 1 LPStatus.completed]).enrollments.map
      (·.progressPercentage) = [5000] ∧
    specProgressRequired (runOps cx3Db [Op.ins 1 7 1 LPStatus.completed]) 7 1 = 100 ∧
    ((5000 : ℚ) / 100 ≠ 100) := by
  refine ⟨by decide, ?_, by norm_num⟩
  have hdb : runOps cx3Db [Op.ins 1 7 1 LPStatus.completed] =
      { lessons := [⟨1, 1, true⟩, ⟨2, 1, false⟩],
        lessonProgress := [⟨1, 7, 1, LPStatus.completed⟩],
        enrollments := [⟨1, 1, 7, EnrollStatus.inProgress, 5000, [1], none⟩],
        xpTransactions := [⟨7, 50, XPSource.lessonCompletion, 1⟩] } := by decide
  rw [hdb]
  have hA : (completedRequiredOf
      { lessons := [⟨1, 1, true⟩, ⟨2, 1, false⟩],
        lessonProgress := [⟨1, 7, 1, LPStatus.completed⟩],
        enrollments := [⟨1, 1, 7, EnrollStatus.inProgress, 5000, [1], none⟩],
        xpTransactions := [⟨7, 50, XPSource.lessonCompletion, 1⟩] } 7 1).length = 1 := by
    decide
  have hB : (requiredOf
      { lessons := [⟨1, 1, true⟩, ⟨2, 1, false⟩],
        lessonProgress := [⟨1, 7, 1, LPStatus.completed⟩],
        enrollments := [⟨1, 1, 7, EnrollStatus.inProgress, 5000, [1], none⟩],
        xpTransactions := [⟨7, 50, XPSource.lessonCompletion, 1⟩] } 1).length = 1 := by
    decide
  rw [specProgressRequired, hA, hB]
  norm_num [round2, round_ofNat]

/-- The trigger never touches the `lessons` table. -/
theorem ucp_lessons (now : Nat) (preOp db : DB) (oldSt : Option LPStatus) (new : LPRow)
    (hpre : preOp.lessons = db.lessons) :
    (update_course_progress now preOp db oldSt new).lessons = db.lessons := by
  unfold update_course_progress
  split
  · split
    · exact hpre
    · split
      · exact hpre
      · rfl
  · rfl

/-- No statement touches the `lessons` table. -/
theorem applyOp_lessons (t : Nat) (db : DB) (op : Op) :
    (applyOp t db op).lessons = db.lessons := by
  cases op with
  | ins l u e st =>
    simp only [applyOp]
    split
    · exact ucp_lessons _ _ _ _ _ rfl
    · rfl
  | upd l u st =>
    simp only [applyOp]
    split
    · rfl
    · exact ucp_lessons _ _ _ _ _ rfl

/-- The enrollment UPDATE keeps the key fields of every row. -/
theorem enrollUpdate_keys (now p lid eid : Nat) (e : EnrollRow) :
    (enrollUpdate now p lid eid e).enrollId = e.enrollId ∧
    (enrollUpdate now p lid eid e).userId = e.userId := by
  unfold enrollUpdate
  split <;> exact ⟨rfl, rfl⟩

/-- Course-completion rows in a concatenated ledger. -/
theorem ccCount_append (xp₁ xp₂ : List XPRow) (u c : Nat) :
    ccCount (xp₁ ++ xp₂) u c = ccCount xp₁ u c + ccCount xp₂ u c := by
  simp [ccCount, List.filter_append]

/-- A lesson-completion grant never counts as a course-completion row. -/
theorem ccCount_lesson (u₀ : Nat) (amt : Int) (sid u c : Nat) :
    ccCount [⟨u₀, amt, XPSource.lessonCompletion, sid⟩] u c = 0 := by
  simp [ccCount]

/-- Count of a single course-completion grant at a (user, course). -/
theorem ccCount_single (u₀ : Nat) (amt : Int) (sid u c : Nat) :
    ccCount [⟨u₀, amt, XPSource.courseCompletion, sid⟩] u c =
      if u = u₀ ∧ c = sid then 1 else 0 := by
  by_cases h : u = u₀ ∧ c = sid
  · obtain ⟨rfl, rfl⟩ := h
    simp [ccCount]
  · rw [if_neg h]
    simp only [ccCount, List.filter_cons, List.filter_nil]
    split_ifs with hp
    · have hp' : u₀ = u ∧ sid = c := by simpa using hp
      exact absurd ⟨hp'.1.symm, hp'.2.symm⟩ h
    · rfl

/-- Appending rows can only grow the completed count. -/
theorem completedCount_append (lessons : List LessonRow) (lp₁ lp₂ : List LPRow) (u c : Nat) :
    completedCountFor lessons (lp₁ ++ lp₂) u c =
      completedCountFor lessons lp₁ u c + completedCountFor lessons lp₂ u c := by
  simp [completedCountFor, List.filter_append]

/-- A lesson id resolving to a course exhibits a lesson row of that
course. -/
theorem courseIdOf_mem {lessons : List LessonRow} {lid cid : Nat}
    (h : courseIdOf lessons lid = some cid) :
    ∃ l₀ ∈ lessons, l₀.courseId = cid ∧ l₀.lessonId = lid := by
  unfold courseIdOf at h
  rcases Option.map_eq_some'.mp h with ⟨l₀, hfind, hcid⟩
  exact ⟨l₀, List.mem_of_find?_eq_some hfind, hcid, by simpa using List.find?_some hfind⟩

/-- Under the unique key, the completed count never exceeds the
course's lesson count. -/
theorem completedCount_le (lessons : List LessonRow) (lp : List LPRow) (u cid : Nat)
    (hU : uniqueLP lp) :
    completedCountFor lessons lp u cid ≤ totalLessonsIn lessons cid := by
  have hNodup : ((lp.filter (countsFor lessons u cid)).map (·.lessonId)).Nodup := by
    apply List.pairwise_map.mpr
    have hPW : (lp.filter (countsFor lessons u cid)).Pairwise
        (fun a b => ¬(a.lessonId = b.lessonId ∧ a.userId = b.userId)) :=
      List.Pairwise.sublist (List.filter_sublist lp) hU
    refine hPW.imp_of_mem ?_
    intro a b ha hb hR hid
    have hau : a.userId = u := by
      have := (List.mem_filter.mp ha).2
      simp only [countsFor, Bool.and_eq_true, beq_iff_eq] at this
      exact this.1.1
    have hbu : b.userId = u := by
      have := (List.mem_filter.mp hb).2
      simp only [countsFor, Bool.and_eq_true, beq_iff_eq] at this
      exact this.1.1
    exact hR ⟨hid, hau.trans hbu.symm⟩
  have hSub : (lp.filter (countsFor lessons u cid)).map (·.lessonId) ⊆
      (lessons.filter (fun l => l.courseId == cid)).map (·.lessonId) := by
    intro x hx
    rcases List.mem_map.mp hx with ⟨r, hrF, rfl⟩
    have hr := (List.mem_filter.mp hrF).2
    simp only [countsFor, Bool.and_eq_true, beq_iff_eq] at hr
    rcases courseIdOf_mem hr.2 with ⟨l₀, hl₀mem, hl₀cid, hl₀id⟩
    exact List.mem_map.mpr
      ⟨l₀, List.mem_filter.mpr ⟨hl₀mem, by simp [hl₀cid]⟩, hl₀id⟩
  have hlen := (List.subperm_of_subset hNodup hSub).length_le
  simpa [completedCountFor, totalLessonsIn] using hlen

/-- At courses with fewer than 20000 lessons, a stored progress of
100.00 means every lesson of the course is counted. -/
theorem progress_full (c t : Nat) (hct : c ≤ t) (ht : t ≠ 0) (hsmall : t < 20000)
    (h : 10000 ≤ progressHundredths c t) : c = t := by
  unfold progressHundredths at h
  have h2t : 0 < 2 * t := by omega
  have := (Nat.le_div_iff_mul_le h2t).mp h
  omega

/-- Effect on a filter count of rewriting the unique row at a key. -/
theorem filter_length_map_ite (L : List LPRow) (P : LPRow → Bool) (l u : Nat)
    (row : LPRow) (old : LPRow) (hU : uniqueLP L) (hold : old ∈ L)
    (holdKey : old.lessonId = l ∧ old.userId = u) :
    ((L.map (fun r => if r.lessonId == l && r.userId == u then row else r)).filter P).length +
      (if P old = true then 1 else 0) =
    (L.filter P).length + (if P row = true then 1 else 0) := by
  induction L with
  | nil => cases hold
  | cons x xs ih =>
    rcases List.pairwise_cons.mp hU with ⟨hx, hxs⟩
    by_cases hkey : (x.lessonId == l && x.userId == u) = true
    · have hxkey : x.lessonId = l ∧ x.userId = u := by simpa using hkey
      have hxold : x = old := by
        rcases List.mem_cons.mp hold with h | h
        · exact h.symm
        · exact absurd ⟨hxkey.1.trans holdKey.1.symm, hxkey.2.trans holdKey.2.symm⟩ (hx _ h)
      obtain rfl := hxold
      have htail : ∀ b ∈ xs, (b.lessonId == l && b.userId == u) = false := by
        intro b hb
        by_contra hbt
        rw [Bool.not_eq_false] at hbt
        have hbkey : b.lessonId = l ∧ b.userId = u := by simpa using hbt
        exact hx _ hb ⟨hxkey.1.trans hbkey.1.symm, hxkey.2.trans hbkey.2.symm⟩
      have hmap : xs.map (fun r => if r.lessonId == l && r.userId == u then row else r) = xs := by
        refine (List.map_congr_left ?_).trans (List.map_id _)
        intro b hb
        simp [htail b hb]
      simp only [List.map_cons, hkey, if_true, hmap]
      rw [List.filter_cons, List.filter_cons]
      split_ifs <;> (try simp only [List.length_cons]) <;> omega
    · have hxold : old ≠ x := by
        intro h
        rw [h] at holdKey
        exact hkey (by simp [holdKey.1, holdKey.2])
      have hold' : old ∈ xs := by
        rcases List.mem_cons.mp hold with h | h
        · exact absurd h hxold
        · exact h
      have hih := ih hxs hold'
      simp only [List.map_cons]
      rw [if_neg hkey]
      rw [List.filter_cons, List.filter_cons]
      revert hih
      split_ifs <;> (try simp only [List.length_cons]) <;> intro hih <;> omega

/-- Completed count of a one-row table. -/
theorem completedCount_singleton (lessons : List LessonRow) (row : LPRow) (u cid : Nat) :
    completedCountFor lessons [row] u cid =
      if countsFor lessons u cid row = true then 1 else 0 := by
  simp only [completedCountFor, List.filter_cons, List.filter_nil]
  split_ifs <;> rfl

/-- The ledger part of the bonus invariant survives a step that keeps
the progress table unchanged or only grows the counts. -/
theorem ccInv_mono (lessons : List LessonRow) (xp : List XPRow) (lp lp' : List LPRow)
    (hCC : ∀ u₂ c₂, ccCount xp u₂ c₂ ≤ 1 ∧
      (1 ≤ ccCount xp u₂ c₂ →
        totalLessonsIn lessons c₂ ≤ completedCountFor lessons lp u₂ c₂))
    (hmono : ∀ u₂ c₂, completedCountFor lessons lp u₂ c₂ ≤
      completedCountFor lessons lp' u₂ c₂) :
    ∀ u₂ c₂, ccCount xp u₂ c₂ ≤ 1 ∧
      (1 ≤ ccCount xp u₂ c₂ →
        totalLessonsIn lessons c₂ ≤ completedCountFor lessons lp' u₂ c₂) := by
  intro u₂ c₂
  exact ⟨(hCC u₂ c₂).1, fun h1 => le_trans ((hCC u₂ c₂).2 h1) (hmono u₂ c₂)⟩

/-- The ledger part of the bonus invariant survives a trigger firing:
the completed count at the firing (user, course) just went up by one,
so a bonus can only be inserted when no bonus row existed before, and
the new bonus certifies a full completed count. -/
theorem ccInv_fireStep (lessons : List LessonRow) (xp : List XPRow) (lp lp' : List LPRow)
    (u cid lid : Nat)
    (hCC : ∀ u₂ c₂, ccCount xp u₂ c₂ ≤ 1 ∧
      (1 ≤ ccCount xp u₂ c₂ →
        totalLessonsIn lessons c₂ ≤ completedCountFor lessons lp u₂ c₂))
    (hmono : ∀ u₂ c₂, completedCountFor lessons lp u₂ c₂ ≤
      completedCountFor lessons lp' u₂ c₂)
    (hsucc : completedCountFor lessons lp' u cid =
      completedCountFor lessons lp u cid + 1)
    (hle : completedCountFor lessons lp' u cid ≤ totalLessonsIn lessons cid)
    (hsm : totalLessonsIn lessons cid < 20000)
    (htot0 : totalLessonsIn lessons cid ≠ 0) :
    ∀ u₂ c₂,
      ccCount (xp ++ (⟨u, 50, XPSource.lessonCompletion, lid⟩ ::
        (if progressHundredths (completedCountFor lessons lp' u cid)
            (totalLessonsIn lessons cid) ≥ 10000 then
          [⟨u, 200, XPSource.courseCompletion, cid⟩]
        else []))) u₂ c₂ ≤ 1 ∧
      (1 ≤ ccCount (xp ++ (⟨u, 50, XPSource.lessonCompletion, lid⟩ ::
          (if progressHundredths (completedCountFor lessons lp' u cid)
              (totalLessonsIn lessons cid) ≥ 10000 then
            [⟨u, 200, XPSource.courseCompletion, cid⟩]
          else []))) u₂ c₂ →
        totalLessonsIn lessons c₂ ≤ completedCountFor lessons lp' u₂ c₂) := by
  intro u₂ c₂
  rw [show (⟨u, 50, XPSource.lessonCompletion, lid⟩ ::
      (if progressHundredths (completedCountFor lessons lp' u cid)
          (totalLessonsIn lessons cid) ≥ 10000 then
        [(⟨u, 200, XPSource.courseCompletion, cid⟩ : XPRow)]
      else [])) =
      [(⟨u, 50, XPSource.lessonCompletion, lid⟩ : XPRow)] ++
      (if progressHundredths (completedCountFor lessons lp' u cid)
          (totalLessonsIn lessons cid) ≥ 10000 then
        [(⟨u, 200, XPSource.courseCompletion, cid⟩ : XPRow)]
      else []) from rfl]
  rw [ccCount_append, ccCount_append, ccCount_lesson]
  split_ifs with hfire
  · have hfull := progress_full _ _ hle htot0 hsm hfire
    have hprior0 : ccCount xp u cid = 0 := by
      by_contra h0
      have h1 : 1 ≤ ccCount xp u cid := Nat.one_le_iff_ne_zero.mpr h0
      have h2 := (hCC u cid).2 h1
      omega
    rw [ccCount_single]
    by_cases hpair : u₂ = u ∧ c₂ = cid
    · obtain ⟨rfl, rfl⟩ := hpair
      rw [if_pos ⟨rfl, rfl⟩]
      exact ⟨by omega, fun _ => by omega⟩
    · rw [if_neg hpair]
      refine ⟨by have := (hCC u₂ c₂).1; omega, fun h1 => ?_⟩
      have h2 := (hCC u₂ c₂).2 (by omega)
      have h4 := hmono u₂ c₂
      omega
  · have h0 : ccCount ([] : List XPRow) u₂ c₂ = 0 := rfl
    rw [h0]
    refine ⟨by have := (hCC u₂ c₂).1; omega, fun h1 => ?_⟩
    have h2 := (hCC u₂ c₂).2 (by omega)
    have h4 := hmono u₂ c₂
    omega

set_option maxHeartbeats 1000000 in
/-- One statement preserves the exactly-once-bonus invariant, provided
it never moves a progress row out of `completed`. -/
theorem stepInvC1 (t : Nat) (db : DB) (op : Op)
    (hInv : InvC1 db) (hMono : opMonotone db op = true) :
    InvC1 (applyOp t db op) := by
  obtain ⟨⟨hU, hFK, hLid, hEid⟩, hSmall, hCC⟩ := hInv
  cases op with
  | ins l u e st =>
    simp only [applyOp]
    split_ifs with hcond
    case neg => exact ⟨⟨hU, hFK, hLid, hEid⟩, hSmall, hCC⟩
    case pos =>
      have hc1 : ((courseIdOf db.lessons l).isSome = true ∧ findLP db l u = none) ∧
          ∃ x ∈ db.enrollments, x.enrollId = e := by
        simpa [Bool.and_eq_true] using hcond
      obtain ⟨⟨hsome, hnone⟩, -⟩ := hc1
      obtain ⟨cid, hcid⟩ := Option.isSome_iff_exists.mp hsome
      have hnotin : ∀ r ∈ db.lessonProgress, ¬(r.lessonId = l ∧ r.userId = u) := by
        intro r hr hk
        have hfind := List.find?_eq_none.mp
          (hnone : List.find? (fun r => r.lessonId == l && r.userId == u)
            db.lessonProgress = none) r hr
        simp [hk.1, hk.2] at hfind
      have hU' : uniqueLP (db.lessonProgress ++ [(⟨l, u, e, st⟩ : LPRow)]) := by
        refine List.pairwise_append.mpr ⟨hU, List.pairwise_singleton _ _, ?_⟩
        intro a ha b hb
        simp only [List.mem_singleton] at hb
        subst hb
        exact fun hk => hnotin a ha ⟨hk.1, hk.2⟩
      have hFK' : ∀ r ∈ db.lessonProgress ++ [(⟨l, u, e, st⟩ : LPRow)],
          (courseIdOf db.lessons r.lessonId).isSome = true := by
        intro r hr
        rcases List.mem_append.mp hr with h | h
        · exact hFK r h
        · simp only [List.mem_singleton] at h
          subst h
          exact hsome
      have hmono : ∀ u₂ c₂, completedCountFor db.lessons db.lessonProgress u₂ c₂ ≤
          completedCountFor db.lessons (db.lessonProgress ++ [(⟨l, u, e, st⟩ : LPRow)]) u₂ c₂ := by
        intro u₂ c₂
        rw [completedCount_append]
        exact Nat.le_add_right _ _
      rw [update_course_progress]
      by_cases hguard : fireGuard none (⟨l, u, e, st⟩ : LPRow) = true
      case neg =>
        rw [if_neg hguard]
        exact ⟨⟨hU', hFK', hLid, hEid⟩, hSmall,
          ccInv_mono db.lessons db.xpTransactions db.lessonProgress _ hCC hmono⟩
      case pos =>
        rw [if_pos hguard]
        have hst : st = LPStatus.completed := by
          simpa [fireGuard] using hguard
        subst hst
        split
        next heq =>
          exact absurd (hcid.symm.trans heq) (by simp)
        next cid₂ heq =>
          have hc2 : cid₂ = cid :=
            Option.some_inj.mp
              ((heq : courseIdOf db.lessons l = some cid₂).symm.trans hcid)
          rw [hc2]
          split_ifs with htot0
          · exact ⟨⟨hU, hFK, hLid, hEid⟩, hSmall, hCC⟩
          · have hsucc : completedCountFor db.lessons
                (db.lessonProgress ++ [(⟨l, u, e, LPStatus.completed⟩ : LPRow)]) u cid =
                completedCountFor db.lessons db.lessonProgress u cid + 1 := by
              rw [completedCount_append, completedCount_singleton]
              rw [if_pos (by simp [countsFor, hcid])]
            have hle : completedCountFor db.lessons
                (db.lessonProgress ++ [(⟨l, u, e, LPStatus.completed⟩ : LPRow)]) u cid ≤
                totalLessonsIn db.lessons cid :=
              completedCount_le _ _ _ _ hU'
            have hsm : totalLessonsIn db.lessons cid < 20000 := by
              rcases courseIdOf_mem hcid with ⟨l₀, hl₀, hl₀c, -⟩
              have := hSmall l₀ hl₀
              rwa [hl₀c] at this
            refine ⟨⟨?_, ?_, ?_, ?_⟩, ?_, ?_⟩
            · exact hU'
            · exact hFK'
            · exact hLid
            · exact List.Pairwise.map _ (fun a b hab => by
                rw [(enrollUpdate_keys _ _ _ _ a).1, (enrollUpdate_keys _ _ _ _ b).1]
                exact hab) hEid
            · exact hSmall
            · exact ccInv_fireStep db.lessons db.xpTransactions db.lessonProgress
                (db.lessonProgress ++ [(⟨l, u, e, LPStatus.completed⟩ : LPRow)]) u cid l
                hCC hmono hsucc hle hsm htot0
  | upd l u st =>
    simp only [applyOp]
    split
    next => exact ⟨⟨hU, hFK, hLid, hEid⟩, hSmall, hCC⟩
    next old hfind =>
      have holdMem : old ∈ db.lessonProgress := List.mem_of_find?_eq_some hfind
      have holdKey0 : old.lessonId = l ∧ old.userId = u := by
        have := List.find?_some hfind
        simpa using this
      obtain ⟨hkl, hku⟩ := holdKey0
      subst hku
      subst hkl
      have hMono' : old.status = LPStatus.completed → st = LPStatus.completed := by
        intro hos
        have hmm := hMono
        simp only [opMonotone] at hmm
        rw [show findLP db old.lessonId old.userId = some old from hfind] at hmm
        simpa [hos] using hmm
      have hkeyf : ∀ r : LPRow,
          ((if r.lessonId == old.lessonId && r.userId == old.userId then
              { old with status := st } else r).lessonId = r.lessonId) ∧
          ((if r.lessonId == old.lessonId && r.userId == old.userId then
              { old with status := st } else r).userId = r.userId) := by
        intro r
        split_ifs with hk
        · have hk' : r.lessonId = old.lessonId ∧ r.userId = old.userId := by simpa using hk
          exact ⟨hk'.1.symm, hk'.2.symm⟩
        · exact ⟨rfl, rfl⟩
      have hU' : uniqueLP (db.lessonProgress.map (fun r =>
          if r.lessonId == old.lessonId && r.userId == old.userId then
            { old with status := st } else r)) := by
        refine List.Pairwise.map _ ?_ hU
        intro a b hab hk
        exact hab ⟨((hkeyf a).1.symm.trans hk.1).trans (hkeyf b).1,
          ((hkeyf a).2.symm.trans hk.2).trans (hkeyf b).2⟩
      have hFK' : ∀ r ∈ db.lessonProgress.map (fun r =>
          if r.lessonId == old.lessonId && r.userId == old.userId then
            { old with status := st } else r),
          (courseIdOf db.lessons r.lessonId).isSome = true := by
        intro r hr
        rcases List.mem_map.mp hr with ⟨r₀, hr₀, rfl⟩
        rw [(hkeyf r₀).1]
        exact hFK r₀ hr₀
      have hrel : ∀ u₂ c₂,
          completedCountFor db.lessons (db.lessonProgress.map (fun r =>
            if r.lessonId == old.lessonId && r.userId == old.userId then
              { old with status := st } else r)) u₂ c₂ +
            (if countsFor db.lessons u₂ c₂ old = true then 1 else 0) =
          completedCountFor db.lessons db.lessonProgress u₂ c₂ +
            (if countsFor db.lessons u₂ c₂ { old with status := st } = true then 1 else 0) :=
        fun u₂ c₂ => filter_length_map_ite db.lessonProgress
          (countsFor db.lessons u₂ c₂) old.lessonId old.userId _ old hU holdMem ⟨rfl, rfl⟩
      have hmono : ∀ u₂ c₂, completedCountFor db.lessons db.lessonProgress u₂ c₂ ≤
          completedCountFor db.lessons (db.lessonProgress.map (fun r =>
            if r.lessonId == old.lessonId && r.userId == old.userId then
              { old with status := st } else r)) u₂ c₂ := by
        intro u₂ c₂
        have h3 := hrel u₂ c₂
        by_cases hP : countsFor db.lessons u₂ c₂ old = true
        · have hos : old.status = LPStatus.completed := by
            have hPa := hP
            simp only [countsFor, Bool.and_eq_true, beq_iff_eq] at hPa
            exact hPa.1.2
          have hQ : countsFor db.lessons u₂ c₂ ({ old with status := st } : LPRow) = true := by
            have hPa := hP
            simp only [countsFor, Bool.and_eq_true, beq_iff_eq] at hPa ⊢
            exact ⟨⟨hPa.1.1, hMono' hos⟩, hPa.2⟩
          rw [if_pos hP, if_pos hQ] at h3
          omega
        · rw [if_neg hP] at h3
          split_ifs at h3 <;> omega
      rw [update_course_progress]
      by_cases hguard : fireGuard (some old.status) ({ old with status := st } : LPRow) = true
      case neg =>
        rw [if_neg hguard]
        exact ⟨⟨hU', hFK', hLid, hEid⟩, hSmall,
          ccInv_mono db.lessons db.xpTransactions db.lessonProgress _ hCC hmono⟩
      case pos =>
        rw [if_pos hguard]
        have hparts : st = LPStatus.completed ∧ old.status ≠ LPStatus.completed := by
          constructor
          · have hg := hguard
            simp only [fireGuard, Bool.and_eq_true, beq_iff_eq] at hg
            exact hg.1
          · intro hos
            have hg := hguard
            simp [fireGuard, hos] at hg
        obtain ⟨hstc, hos⟩ := hparts
        subst hstc
        obtain ⟨cid, hcid⟩ := Option.isSome_iff_exists.mp (hFK old holdMem)
        have hcid' : courseIdOf db.lessons
            ({ old with status := LPStatus.completed } : LPRow).lessonId = some cid := by
          simpa using hcid
        split
        next heq =>
          exact absurd (hcid'.symm.trans heq) (by simp)
        next cid₂ heq =>
          have heq' : courseIdOf db.lessons
              ({ old with status := LPStatus.completed } : LPRow).lessonId = some cid₂ := heq
          have hc2 : cid₂ = cid := Option.some_inj.mp (heq'.symm.trans hcid')
          rw [hc2]
          split_ifs with htot0
          · exact ⟨⟨hU, hFK, hLid, hEid⟩, hSmall, hCC⟩
          · show InvC1 {
              lessons := db.lessons,
              lessonProgress := db.lessonProgress.map (fun r =>
                if r.lessonId == old.lessonId && r.userId == old.userId then
                  { old with status := LPStatus.completed } else r),
              enrollments := db.enrollments.map (enrollUpdate t
                (progressHundredths
                  (completedCountFor db.lessons (db.lessonProgress.map (fun r =>
                    if r.lessonId == old.lessonId && r.userId == old.userId then
                      { old with status := LPStatus.completed } else r)) old.userId cid)
                  (totalLessonsIn db.lessons cid)) old.lessonId old.enrollmentId),
              xpTransactions := db.xpTransactions ++
                (⟨old.userId, 50, XPSource.lessonCompletion, old.lessonId⟩ ::
                  (if progressHundredths
                      (completedCountFor db.lessons (db.lessonProgress.map (fun r =>
                        if r.lessonId == old.lessonId && r.userId == old.userId then
                          { old with status := LPStatus.completed } else r)) old.userId cid)
                      (totalLessonsIn db.lessons cid) ≥ 10000 then
                    [⟨old.userId, 200, XPSource.courseCompletion, cid⟩]
                  else [])) }
            have hPold : countsFor db.lessons old.userId cid old = false := by
              simp [countsFor, hos]
            have hPnew : countsFor db.lessons old.userId cid
                ({ old with status := LPStatus.completed } : LPRow) = true := by
              simp [countsFor, hcid]
            have hsucc : completedCountFor db.lessons (db.lessonProgress.map (fun r =>
                if r.lessonId == old.lessonId && r.userId == old.userId then
                  { old with status := LPStatus.completed } else r)) old.userId cid =
                completedCountFor db.lessons db.lessonProgress old.userId cid + 1 := by
              have h3 := hrel old.userId cid
              rw [if_pos hPnew, if_neg (by simp [hPold])] at h3
              omega
            have hle : completedCountFor db.lessons (db.lessonProgress.map (fun r =>
                if r.lessonId == old.lessonId && r.userId == old.userId then
                  { old with status := LPStatus.completed } else r)) old.userId cid ≤
                totalLessonsIn db.lessons cid :=
              completedCount_le _ _ _ _ hU'
            have hsm : totalLessonsIn db.lessons cid < 20000 := by
              rcases courseIdOf_mem hcid with ⟨l₀, hl₀, hl₀c, -⟩
              have := hSmall l₀ hl₀
              rwa [hl₀c] at this
            refine ⟨⟨?_, ?_, ?_, ?_⟩, ?_, ?_⟩
            · exact hU'
            · exact hFK'
            · exact hLid
            · exact List.Pairwise.map _ (fun a b hab => by
                rw [(enrollUpdate_keys _ _ _ _ a).1, (enrollUpdate_keys _ _ _ _ b).1]
                exact hab) hEid
            · exact hSmall
            · set lp2 := db.lessonProgress.map (fun r =>
                if r.lessonId == old.lessonId && r.userId == old.userId then
                  { old with status := LPStatus.completed } else r) with hlp2
              exact ccInv_fireStep db.lessons db.xpTransactions db.lessonProgress lp2
                old.userId cid old.lessonId hCC hmono hsucc hle hsm htot0


/-- The bonus invariant holds along any monotone trace. -/
theorem runInvC1 (ops : List Op) (t : Nat) (db : DB)
    (hInv : InvC1 db) (hM : traceMonotoneFrom t db ops = true) :
    InvC1 (runOpsFrom t db ops) := by
  induction ops generalizing t db with
  | nil => simpa [runOpsFrom] using hInv
  | cons op rest ih =>
    rw [traceMonotoneFrom, Bool.and_eq_true] at hM
    exact ih (t + 1) (applyOp t db op) (stepInvC1 t db op hInv hM.1) hM.2

/-- C1 as amended: starting from a fresh progress table and XP ledger,
for every trace of INSERT/UPDATE statements on `lesson_progress` in
which no statement moves a row out of `completed` — and with every
course below 20000 lessons, beneath which the two-decimal rounding
cannot reach 100.00 early — the `course_completion` XP grant is
recorded at most once per (user, course). -/
theorem korbit_c1 (db₀ : DB) (ops : List Op) (u c : Nat)
    (hWf : WfBase db₀) (hSmall : smallCourses db₀)
    (hlp : db₀.lessonProgress = []) (hxp : db₀.xpTransactions = [])
    (hM : traceMonotoneFrom 0 db₀ ops = true) :
    ccCount (runOps db₀ ops).xpTransactions u c ≤ 1 := by
  have hInv : InvC1 db₀ := by
    refine ⟨hWf, hSmall, fun u₂ c₂ => ?_⟩
    rw [hxp]
    exact ⟨by simp [ccCount], fun h1 => absurd h1 (by simp [ccCount])⟩
  exact ((runInvC1 ops 0 db₀ hInv hM).2.2 u c).1

/-- C1 witness: the Scenario A trace awards the course bonus at most
once. -/
theorem korbit_c1_w :
    ccCount (runOps scnDb scnOps4).xpTransactions 7 1 ≤ 1 :=
  korbit_c1 scnDb scnOps4 7 1 (by decide) (by decide) rfl rfl (by decide)

/-- C1 counterexample: completing the single lesson of a one-lesson
course, reverting it to in-progress, and completing it again — three
legal `lesson_progress` statements — inserts the `course_completion`
grant twice for the same (user, course), refuting the claim that no
statement sequence ever produces two such transactions. -/
theorem korbit_c1_cx :
    ccCount (runOps oneLessonDb revertOps).xpTransactions 7 1 = 2 ∧
    ¬ccCount (runOps oneLessonDb revertOps).xpTransactions 7 1 ≤ 1 := by
  decide

/-- Appending a lesson id to the arrays at one enrollment id keeps
every array duplicate-free, provided the appended id is fresh for the
targeted enrollments and every array entry stays certified by a
completed row after the step. -/
theorem arrOK_map (enr : List EnrollRow) (lp lp' : List LPRow) (now np lid eid : Nat)
    (harr : ∀ e ∈ enr, e.completedLessons.Nodup ∧ ∀ L ∈ e.completedLessons,
      ∃ r ∈ lp, r.lessonId = L ∧ r.userId = e.userId ∧ r.status = LPStatus.completed)
    (hsurv : ∀ r ∈ lp, r.status = LPStatus.completed →
      ∃ r₂ ∈ lp', r₂.lessonId = r.lessonId ∧ r₂.userId = r.userId ∧
        r₂.status = LPStatus.completed)
    (hnew : ∀ e ∈ enr, e.enrollId = eid →
      ¬∃ r ∈ lp, r.lessonId = lid ∧ r.userId = e.userId ∧ r.status = LPStatus.completed)
    (hnewrow : ∀ e ∈ enr, e.enrollId = eid →
      ∃ r₂ ∈ lp', r₂.lessonId = lid ∧ r₂.userId = e.userId ∧
        r₂.status = LPStatus.completed) :
    ∀ e₁ ∈ enr.map (enrollUpdate now np lid eid), e₁.completedLessons.Nodup ∧
      ∀ L ∈ e₁.completedLessons, ∃ r ∈ lp', r.lessonId = L ∧ r.userId = e₁.userId ∧
        r.status = LPStatus.completed := by
  intro e₁ he₁
  rcases List.mem_map.mp he₁ with ⟨e₀, he₀, rfl⟩
  obtain ⟨hnd, hwit⟩ := harr e₀ he₀
  unfold enrollUpdate
  by_cases hid : (e₀.enrollId == eid) = true
  · rw [if_pos hid]
    have hid' : e₀.enrollId = eid := by simpa using hid
    show (e₀.completedLessons ++ [lid]).Nodup ∧
      ∀ L ∈ e₀.completedLessons ++ [lid], ∃ r ∈ lp', r.lessonId = L ∧
        r.userId = e₀.userId ∧ r.status = LPStatus.completed
    constructor
    · rw [List.nodup_append]
      refine ⟨hnd, List.nodup_singleton _, ?_⟩
      intro L hL hL2
      simp only [List.mem_singleton] at hL2
      subst hL2
      exact hnew e₀ he₀ hid' (hwit L hL)
    · intro L hL
      rcases List.mem_append.mp hL with h | h
      · rcases hwit L h with ⟨r, hr, hr1, hr2, hr3⟩
        rcases hsurv r hr hr3 with ⟨r₂, hr₂, h1, h2, h3⟩
        exact ⟨r₂, hr₂, h1.trans hr1, h2.trans hr2, h3⟩
      · simp only [List.mem_singleton] at h
        subst h
        exact hnewrow e₀ he₀ hid'
  · rw [if_neg hid]
    refine ⟨hnd, fun L hL => ?_⟩
    rcases hwit L hL with ⟨r, hr, hr1, hr2, hr3⟩
    rcases hsurv r hr hr3 with ⟨r₂, hr₂, h1, h2, h3⟩
    exact ⟨r₂, hr₂, h1.trans hr1, h2.trans hr2, h3⟩

set_option maxHeartbeats 1000000 in
/-- One statement preserves the duplicate-free-array invariant,
provided it never moves a row out of `completed` and INSERTs target the
inserting user's own enrollment. -/
theorem stepInvC6 (t : Nat) (db : DB) (op : Op)
    (hInv : InvC6 db) (hMono : opMonotone db op = true) (hOwn : opOwned db op = true) :
    InvC6 (applyOp t db op) := by
  obtain ⟨⟨hU, hFK, hLid, hEid⟩, hOwnInv, hArr⟩ := hInv
  cases op with
  | ins l u e st =>
    simp only [applyOp]
    split_ifs with hcond
    case neg => exact ⟨⟨hU, hFK, hLid, hEid⟩, hOwnInv, hArr⟩
    case pos =>
      have hc1 : ((courseIdOf db.lessons l).isSome = true ∧ findLP db l u = none) ∧
          ∃ x ∈ db.enrollments, x.enrollId = e := by
        simpa [Bool.and_eq_true] using hcond
      obtain ⟨⟨hsome, hnone⟩, -⟩ := hc1
      obtain ⟨cid, hcid⟩ := Option.isSome_iff_exists.mp hsome
      have hOwn' : ∀ er ∈ db.enrollments, er.enrollId = e → er.userId = u := by
        intro er her hid
        have hall := List.all_eq_true.mp (hOwn : (db.enrollments.all
          (fun er => !(er.enrollId == e) || (er.userId == u))) = true) er her
        simpa [hid] using hall
      have hnotin : ∀ r ∈ db.lessonProgress, ¬(r.lessonId = l ∧ r.userId = u) := by
        intro r hr hk
        have hfind := List.find?_eq_none.mp
          (hnone : List.find? (fun r => r.lessonId == l && r.userId == u)
            db.lessonProgress = none) r hr
        simp [hk.1, hk.2] at hfind
      have hU' : uniqueLP (db.lessonProgress ++ [(⟨l, u, e, st⟩ : LPRow)]) := by
        refine List.pairwise_append.mpr ⟨hU, List.pairwise_singleton _ _, ?_⟩
        intro a ha b hb
        simp only [List.mem_singleton] at hb
        subst hb
        exact fun hk => hnotin a ha ⟨hk.1, hk.2⟩
      have hFK' : ∀ r ∈ db.lessonProgress ++ [(⟨l, u, e, st⟩ : LPRow)],
          (courseIdOf db.lessons r.lessonId).isSome = true := by
        intro r hr
        rcases List.mem_append.mp hr with h | h
        · exact hFK r h
        · simp only [List.mem_singleton] at h
          subst h
          exact hsome
      have hOwnInv' : ∀ r ∈ db.lessonProgress ++ [(⟨l, u, e, st⟩ : LPRow)],
          ∀ e₀ ∈ db.enrollments, e₀.enrollId = r.enrollmentId → e₀.userId = r.userId := by
        intro r hr e₀ he₀ hid
        rcases List.mem_append.mp hr with h | h
        · exact hOwnInv r h e₀ he₀ hid
        · simp only [List.mem_singleton] at h
          subst h
          exact hOwn' e₀ he₀ hid
      have hsurv : ∀ r ∈ db.lessonProgress, r.status = LPStatus.completed →
          ∃ r₂ ∈ db.lessonProgress ++ [(⟨l, u, e, st⟩ : LPRow)], r₂.lessonId = r.lessonId ∧
            r₂.userId = r.userId ∧ r₂.status = LPStatus.completed := by
        intro r hr hc
        exact ⟨r, List.mem_append_left _ hr, rfl, rfl, hc⟩
      rw [update_course_progress]
      by_cases hguard : fireGuard none (⟨l, u, e, st⟩ : LPRow) = true
      case neg =>
        rw [if_neg hguard]
        refine ⟨⟨hU', hFK', hLid, hEid⟩, hOwnInv', fun e₀ he₀ => ?_⟩
        obtain ⟨hnd, hwit⟩ := hArr e₀ he₀
        refine ⟨hnd, fun L hL => ?_⟩
        rcases hwit L hL with ⟨r, hr, h1, h2, h3⟩
        rcases hsurv r hr h3 with ⟨r₂, hr₂, g1, g2, g3⟩
        exact ⟨r₂, hr₂, g1.trans h1, g2.trans h2, g3⟩
      case pos =>
        rw [if_pos hguard]
        have hst : st = LPStatus.completed := by
          simpa [fireGuard] using hguard
        subst hst
        split
        next heq =>
          exact absurd (hcid.symm.trans heq) (by simp)
        next cid₂ heq =>
          split_ifs with htot0
          · exact ⟨⟨hU, hFK, hLid, hEid⟩, hOwnInv, hArr⟩
          · refine ⟨⟨?_, ?_, ?_, ?_⟩, ?_, ?_⟩
            · exact hU'
            · exact hFK'
            · exact hLid
            · exact List.Pairwise.map _ (fun a b hab => by
                rw [(enrollUpdate_keys _ _ _ _ a).1, (enrollUpdate_keys _ _ _ _ b).1]
                exact hab) hEid
            · intro r hr e₀ he₀ hid
              rcases List.mem_map.mp he₀ with ⟨e₁, he₁, rfl⟩
              rw [(enrollUpdate_keys _ _ _ _ e₁).2]
              exact hOwnInv' r hr e₁ he₁
                (((enrollUpdate_keys _ _ _ _ e₁).1).symm.trans hid)
            · refine arrOK_map db.enrollments db.lessonProgress
                (db.lessonProgress ++ [(⟨l, u, e, LPStatus.completed⟩ : LPRow)]) t _ l e
                hArr hsurv ?_ ?_
              · rintro e₀ he₀ hid ⟨r, hr, h1, h2, h3⟩
                exact hnotin r hr ⟨h1, h2.trans (hOwn' e₀ he₀ hid)⟩
              · intro e₀ he₀ hid
                exact ⟨⟨l, u, e, LPStatus.completed⟩,
                  List.mem_append_right _ (List.mem_singleton_self _),
                  rfl, (hOwn' e₀ he₀ hid).symm, rfl⟩
  | upd l u st =>
    simp only [applyOp]
    split
    next => exact ⟨⟨hU, hFK, hLid, hEid⟩, hOwnInv, hArr⟩
    next old hfind =>
      have holdMem : old ∈ db.lessonProgress := List.mem_of_find?_eq_some hfind
      have holdKey0 : old.lessonId = l ∧ old.userId = u := by
        have := List.find?_some hfind
        simpa using this
      obtain ⟨hkl, hku⟩ := holdKey0
      subst hku
      subst hkl
      have hMono' : old.status = LPStatus.completed → st = LPStatus.completed := by
        intro hos
        have hmm := hMono
        simp only [opMonotone] at hmm
        rw [show findLP db old.lessonId old.userId = some old from hfind] at hmm
        simpa [hos] using hmm
      have hf_cases : ∀ r ∈ db.lessonProgress,
          ((if r.lessonId == old.lessonId && r.userId == old.userId then
            { old with status := st } else r) = r) ∨
          (r = old ∧ (if r.lessonId == old.lessonId && r.userId == old.userId then
            { old with status := st } else r) = { old with status := st }) := by
        intro r hr
        split_ifs with hk
        · have hk' : r.lessonId = old.lessonId ∧ r.userId = old.userId := by simpa using hk
          exact Or.inr ⟨lp_key_unique hU hr holdMem hk', rfl⟩
        · exact Or.inl rfl
      have hkeyf : ∀ r : LPRow,
          ((if r.lessonId == old.lessonId && r.userId == old.userId then
              { old with status := st } else r).lessonId = r.lessonId) ∧
          ((if r.lessonId == old.lessonId && r.userId == old.userId then
              { old with status := st } else r).userId = r.userId) := by
        intro r
        split_ifs with hk
        · have hk' : r.lessonId = old.lessonId ∧ r.userId = old.userId := by simpa using hk
          exact ⟨hk'.1.symm, hk'.2.symm⟩
        · exact ⟨rfl, rfl⟩
      have hU' : uniqueLP (db.lessonProgress.map (fun r =>
          if r.lessonId == old.lessonId && r.userId == old.userId then
            { old with status := st } else r)) := by
        refine List.Pairwise.map _ ?_ hU
        intro a b hab hk
        exact hab ⟨((hkeyf a).1.symm.trans hk.1).trans (hkeyf b).1,
          ((hkeyf a).2.symm.trans hk.2).trans (hkeyf b).2⟩
      have hFK' : ∀ r ∈ db.lessonProgress.map (fun r =>
          if r.lessonId == old.lessonId && r.userId == old.userId then
            { old with status := st } else r),
          (courseIdOf db.lessons r.lessonId).isSome = true := by
        intro r hr
        rcases List.mem_map.mp hr with ⟨r₀, hr₀, rfl⟩
        rw [(hkeyf r₀).1]
        exact hFK r₀ hr₀
      have hOwnInv' : ∀ r ∈ db.lessonProgress.map (fun r =>
          if r.lessonId == old.lessonId && r.userId == old.userId then
            { old with status := st } else r),
          ∀ e₀ ∈ db.enrollments, e₀.enrollId = r.enrollmentId → e₀.userId = r.userId := by
        intro r hr e₀ he₀ hid
        rcases List.mem_map.mp hr with ⟨r₀, hr₀, rfl⟩
        rcases hf_cases r₀ hr₀ with hcase | ⟨hrold, hcase⟩
        · rw [hcase] at hid ⊢
          exact hOwnInv r₀ hr₀ e₀ he₀ hid
        · rw [hcase] at hid ⊢
          exact hOwnInv old holdMem e₀ he₀ hid
      have hsurv : ∀ r ∈ db.lessonProgress, r.status = LPStatus.completed →
          ∃ r₂ ∈ db.lessonProgress.map (fun r =>
            if r.lessonId == old.lessonId && r.userId == old.userId then
              { old with status := st } else r), r₂.lessonId = r.lessonId ∧
            r₂.userId = r.userId ∧ r₂.status = LPStatus.completed := by
        intro r hr hc
        refine ⟨_, List.mem_map_of_mem _ hr, (hkeyf r).1, (hkeyf r).2, ?_⟩
        rcases hf_cases r hr with hcase | ⟨hrold, hcase⟩
        · rw [hcase]
          exact hc
        · rw [hcase]
          exact hMono' (hrold ▸ hc)
      rw [update_course_progress]
      by_cases hguard : fireGuard (some old.status) ({ old with status := st } : LPRow) = true
      case neg =>
        rw [if_neg hguard]
        refine ⟨⟨hU', hFK', hLid, hEid⟩, hOwnInv', fun e₀ he₀ => ?_⟩
        obtain ⟨hnd, hwit⟩ := hArr e₀ he₀
        refine ⟨hnd, fun L hL => ?_⟩
        rcases hwit L hL with ⟨r, hr, h1, h2, h3⟩
        rcases hsurv r hr h3 with ⟨r₂, hr₂, g1, g2, g3⟩
        exact ⟨r₂, hr₂, g1.trans h1, g2.trans h2, g3⟩
      case pos =>
        rw [if_pos hguard]
        have hparts : st = LPStatus.completed ∧ old.status ≠ LPStatus.completed := by
          constructor
          · have hg := hguard
            simp only [fireGuard, Bool.and_eq_true, beq_iff_eq] at hg
            exact hg.1
          · intro hos
            have hg := hguard
            simp [fireGuard, hos] at hg
        obtain ⟨hstc, hos⟩ := hparts
        subst hstc
        split
        next heq =>
          exact ⟨⟨hU, hFK, hLid, hEid⟩, hOwnInv, hArr⟩
        next cid₂ heq =>
          split_ifs with htot0
          · exact ⟨⟨hU, hFK, hLid, hEid⟩, hOwnInv, hArr⟩
          · refine ⟨⟨?_, ?_, ?_, ?_⟩, ?_, ?_⟩
            · exact hU'
            · exact hFK'
            · exact hLid
            · exact List.Pairwise.map _ (fun a b hab => by
                rw [(enrollUpdate_keys _ _ _ _ a).1, (enrollUpdate_keys _ _ _ _ b).1]
                exact hab) hEid
            · intro r hr e₀ he₀ hid
              rcases List.mem_map.mp he₀ with ⟨e₁, he₁, rfl⟩
              rw [(enrollUpdate_keys _ _ _ _ e₁).2]
              exact hOwnInv' r hr e₁ he₁
                (((enrollUpdate_keys _ _ _ _ e₁).1).symm.trans hid)
            · refine arrOK_map db.enrollments db.lessonProgress
                (db.lessonProgress.map (fun r =>
                  if r.lessonId == old.lessonId && r.userId == old.userId then
                    { old with status := LPStatus.completed } else r)) t _
                old.lessonId old.enrollmentId hArr hsurv ?_ ?_
              · rintro e₀ he₀ hid ⟨r, hr, h1, h2, h3⟩
                have huser : e₀.userId = old.userId := hOwnInv old holdMem e₀ he₀ hid
                have hrold : r = old := lp_key_unique hU hr holdMem ⟨h1, h2.trans huser⟩
                exact hos (hrold ▸ h3)
              · intro e₀ he₀ hid
                have huser : e₀.userId = old.userId := hOwnInv old holdMem e₀ he₀ hid
                refine ⟨{ old with status := LPStatus.completed }, ?_, rfl, huser.symm, rfl⟩
                exact List.mem_map.mpr ⟨old, holdMem, by simp⟩

/-- The duplicate-free-array invariant holds along any monotone, owned
trace. -/
theorem runInvC6 (ops : List Op) (t : Nat) (db : DB)
    (hInv : InvC6 db) (hM : traceMonotoneFrom t db ops = true)
    (hO : traceOwnedFrom t db ops = true) :
    InvC6 (runOpsFrom t db ops) := by
  induction ops generalizing t db with
  | nil => simpa [runOpsFrom] using hInv
  | cons op rest ih =>
    rw [traceMonotoneFrom, Bool.and_eq_true] at hM
    rw [traceOwnedFrom, Bool.and_eq_true] at hO
    exact ih (t + 1) (applyOp t db op) (stepInvC6 t db op hInv hM.1 hO.1) hM.2 hO.2

/-- C6 as amended: starting from a fresh progress table and empty
completed-lessons arrays, for every trace of statements in which no
statement moves a row out of `completed` and every INSERT targets an
enrollment of its own user, no enrollment's `completed_lessons` array
ever contains the same lesson id twice. -/
theorem korbit_c6 (db₀ : DB) (ops : List Op)
    (hWf : WfBase db₀)
    (hlp : db₀.lessonProgress = [])
    (harr : ∀ e ∈ db₀.enrollments, e.completedLessons = [])
    (hM : traceMonotoneFrom 0 db₀ ops = true)
    (hO : traceOwnedFrom 0 db₀ ops = true) :
    ∀ e ∈ (runOps db₀ ops).enrollments, e.completedLessons.Nodup := by
  have hInv : InvC6 db₀ := by
    refine ⟨hWf, ?_, ?_⟩
    · intro r hr
      rw [hlp] at hr
      cases hr
    · intro e he
      rw [harr e he]
      exact ⟨List.nodup_nil, fun L hL => absurd hL (List.not_mem_nil _)⟩
  intro e he
  exact ((runInvC6 ops 0 db₀ hInv hM hO).2.2 e he).1

/-- C6 witness: the Scenario A trace leaves the enrollment's
completed-lessons array duplicate-free. -/
theorem korbit_c6_w :
    (⟨1, 1, 7, EnrollStatus.completed, 10000, [1, 2, 3, 4],
      some 3⟩ : EnrollRow).completedLessons.Nodup :=
  korbit_c6 scnDb scnOps4 (by decide) rfl (by decide) (by decide) (by decide)
    ⟨1, 1, 7, EnrollStatus.completed, 10000, [1, 2, 3, 4], some 3⟩ (by decide)

/-- C6 counterexample: completing the single lesson, reverting it, and
completing it again appends the lesson id to `completed_lessons` twice,
refuting the claim that no statement sequence ever duplicates an entry. -/
theorem korbit_c6_cx :
    (runOps oneLessonDb revertOps).enrollments =
      [⟨1, 1, 7, EnrollStatus.completed, 10000, [1, 1], some 2⟩] ∧
    ¬(∀ e ∈ (runOps oneLessonDb revertOps).enrollments, e.completedLessons.Nodup) := by
  refine ⟨by decide, ?_⟩
  intro h
  have hx := h ⟨1, 1, 7, EnrollStatus.completed, 10000, [1, 1], some 2⟩ (by decide)
  simp at hx

end KOrbit
